import Mathlib

/-!
Verification of the recipe-manager application against its design notes.

The development shallowly embeds the two files that carry the logic under
scrutiny:

* `src/lib/pdf-utils.ts` — the paginated report builder `generateRecipePDF`
  with its local helpers `addText`, `addSeparator`, the metadata table loop,
  the difficulty-label lookup and the filename sanitization;
* `src/components/RecipeForm.tsx` — the `onSubmit` save routine issuing the
  remote-store operations.

Strings are Lean `String`s; characters are compared through their code
points.  JavaScript numbers appearing in layout arithmetic are modelled as
rationals, `0.4` being `2/5`.  The third-party canvas (jsPDF) is modelled as
a page index, a vertical cursor and a list of emitted drawing effects; its
line-wrapping routine `splitTextToSize` is an uninterpreted parameter
`lc : String → Nat` giving the wrapped line count of a string.  Remote calls
and canvas primitives may throw; a fault oracle `Nat → Bool` tells which
call (by position) throws, and execution stops at the first throwing call,
which is what an exception does in the straight-line source.
-/

namespace RecipeApp

/-! ## Generic list helpers -/

theorem foldl_preserve {α σ : Type _} (P : σ → Prop) (f : σ → α → σ)
    (hstep : ∀ s a, P s → P (f s a)) :
    ∀ (l : List α) (s : σ), P s → P (l.foldl f s) := by
  intro l
  induction l with
  | nil => intro s hs; simpa using hs
  | cons a t ih => intro s hs; exact ih (f s a) (hstep s a hs)

theorem foldl_filter_append {α β : Type _} (p : α → Prop) [DecidablePred p]
    (f : α → β) :
    ∀ (l : List α) (acc : List β),
      l.foldl (fun acc a => if p a then acc ++ [f a] else acc) acc
        = acc ++ ((l.filter fun a => decide (p a)).map f) := by
  intro l
  induction l with
  | nil => intro acc; simp
  | cons a t ih =>
      intro acc
      by_cases ha : p a
      · simp [List.foldl_cons, ha, ih, List.filter_cons]
      · simp [List.foldl_cons, ha, ih, List.filter_cons]

/-! ## Filename sanitization (pdf-utils.ts line 148)

`recipe.name.replace(/[^a-z0-9]/gi, '_').toLowerCase() + '.pdf'`.

A character code matches the class `[a-z0-9]` under the `i` flag exactly
when it is an ASCII letter (either case) or digit; `toLowerCase` maps the
ASCII uppercase range down by 32 and is the identity elsewhere (the model
covers the Basic Latin behaviour of the JavaScript string functions). -/

def codes (s : String) : List Nat := s.data.map Char.toNat

def matchesAlnumCI (n : Nat) : Prop :=
  (97 ≤ n ∧ n ≤ 122) ∨ (65 ≤ n ∧ n ≤ 90) ∨ (48 ≤ n ∧ n ≤ 57)

instance : DecidablePred matchesAlnumCI := by
  intro n; unfold matchesAlnumCI; infer_instance

def sanitizeCode (n : Nat) : Nat := if matchesAlnumCI n then n else 95

def jsToLowerCode (n : Nat) : Nat := if 65 ≤ n ∧ n ≤ 90 then n + 32 else n

/-- The filename built by the source: replace every character outside the
case-insensitive class, then lower-case, then append the extension. -/
def exportFileName (name : List Nat) : List Nat :=
  ((name.map sanitizeCode).map jsToLowerCode) ++ codes ".pdf"

/-- Modelled from the spec: the filename as §6/§8 describe it — the
lower-cased name with every character outside `[a-z0-9]` (checked
case-insensitively) replaced by an underscore, plus the fixed extension. -/
def specFileName (name : List Nat) : List Nat :=
  ((name.map jsToLowerCode).map sanitizeCode) ++ codes ".pdf"

theorem jsToLowerCode_sanitizeCode (n : Nat) :
    jsToLowerCode (sanitizeCode n) = sanitizeCode (jsToLowerCode n) := by
  unfold jsToLowerCode sanitizeCode matchesAlnumCI
  split_ifs <;> omega

/-- C1: for every recipe name, the export filename produced by the code
(replace the characters outside `[a-z0-9]` case-insensitively by `_`, then
lower-case, then append `.pdf`) coincides with the spec formulation
(lower-case first, then replace), and the name "Paella Valenciana!" yields
"paella_valenciana_.pdf". -/
theorem fileName_spec :
    (∀ name : List Nat, exportFileName name = specFileName name) ∧
      exportFileName (codes "Paella Valenciana!") = codes "paella_valenciana_.pdf" := by
  constructor
  · intro name
    unfold exportFileName specFileName
    simp only [List.map_map]
    congr 1
    exact List.map_congr_left fun n _ => jsToLowerCode_sanitizeCode n
  · decide

/-! ## Data model (types/recipe.ts, modelled from §3 of the spec; the file
itself is not under src/).  `RecipeWithDetails` of pdf-utils.ts is the
recipe together with its ingredient rows (each optionally resolved to a
unit display name, `unit?.name`) and its instruction rows.  Optional or
possibly-absent fields are `Option`s; an empty string is a present, falsy
value and is distinct from an absent field. -/

structure Ingredient where
  ingredient : String
  quantity : Option ℚ
  unitName : Option String
  notes : Option String
deriving DecidableEq

structure Instruction where
  step_number : Nat
  instruction : String
deriving DecidableEq

structure Recipe where
  name : String
  description : Option String
  category : Option String
  preparation_time : Option Nat
  cooking_time : Option Nat
  servings : Option Nat
  difficulty : Option String
  ingredients : List Ingredient
  instructions : List Instruction
deriving DecidableEq

/-- JavaScript truthiness of an optional string: absent, and the empty
string, are falsy. -/
def jsTruthyStr (o : Option String) : Bool :=
  match o with
  | some s => s ≠ ""
  | none => false

/-- JavaScript `v || d` for an optional number defaulting to `d`: absent and
zero both give the default. -/
def jsOrNat (v : Option Nat) (d : Nat) : Nat :=
  match v with
  | some n => if n = 0 then d else n
  | none => d

/-! ## The jsPDF canvas model

The canvas is the current page index, the vertical cursor `currentY`, and
the list of drawing effects emitted so far.  `margin` is the literal 20 of
the source; the page height `H` stays a parameter (the source reads it from
the library). -/

inductive Effect where
  | text (page : Nat) (y : ℚ) (lineCount : Nat) (fontSize : ℚ)
      (content : String) (isBold : Bool) (color : String)
  | rule (page : Nat) (y : ℚ)
  | cell (page : Nat) (y : ℚ) (content : String)
  | footer (page : Nat) (y : ℚ) (content : String)
  | save (fileName : List Nat)
deriving DecidableEq

def Effect.isFooter : Effect → Bool
  | .footer _ _ _ => true
  | _ => false

def Effect.isSave : Effect → Bool
  | .save _ => true
  | _ => false

structure PdfState where
  page : Nat
  currentY : ℚ
  effects : List Effect
deriving DecidableEq

/-- pdf-utils.ts lines 18–39.  Wrap the text (`lc` gives the line count),
compute the block height `lines.length * fontSize * 0.4`, start a new page
with the cursor reset to the top margin when the cursor plus the block
height would cross `pageHeight - margin`, emit, then advance the cursor by
the block height plus 5. -/
def addText (lc : String → Nat) (H : ℚ) (content : String) (fontSize : ℚ)
    (isBold : Bool) (color : String) (st : PdfState) : PdfState :=
  let lineCount := lc content
  let blockH := (lineCount : ℚ) * (fontSize * (2/5))
  let st1 := if st.currentY + blockH > H - 20 then
      { st with page := st.page + 1, currentY := 20 }
    else st
  { st1 with
      effects := st1.effects ++
        [Effect.text st1.page st1.currentY lineCount fontSize content isBold color],
      currentY := st1.currentY + blockH + 5 }

/-- pdf-utils.ts lines 42–50: the separator rule, with its own page-break
check against `currentY + 10`, advancing the cursor by 15. -/
def addSeparator (H : ℚ) (st : PdfState) : PdfState :=
  let st1 := if st.currentY + 10 > H - 20 then
      { st with page := st.page + 1, currentY := 20 }
    else st
  { st1 with
      effects := st1.effects ++ [Effect.rule st1.page st1.currentY],
      currentY := st1.currentY + 15 }

/-- Cursor bump `currentY += d` appearing between the source's layout
steps. -/
def bumpY (d : ℚ) (st : PdfState) : PdfState :=
  { st with currentY := st.currentY + d }

/-! ## The metadata table (pdf-utils.ts lines 64–111) -/

/-- pdf-utils.ts lines 64–71: the difficulty-label switch of the exporter
(`difficulty?: string`, so the scrutinee is optional). -/
def getDifficultyText (difficulty : Option String) : String :=
  if difficulty = some "easy" then "Fácil"
  else if difficulty = some "medium" then "Medio"
  else if difficulty = some "hard" then "Difícil"
  else "No especificado"

/-- part_002 lines 144–151: the identical switch in the list view. -/
def getDifficultyTextList (difficulty : Option String) : String :=
  if difficulty = some "easy" then "Fácil"
  else if difficulty = some "medium" then "Medio"
  else if difficulty = some "hard" then "Difícil"
  else "No especificado"

/-- part_003 lines 151–158: the switch in the detail view, whose parameter
is a plain (non-optional) string. -/
def getDifficultyTextDetail (difficulty : String) : String :=
  if difficulty = "easy" then "Fácil"
  else if difficulty = "medium" then "Medio"
  else if difficulty = "hard" then "Difícil"
  else "No especificado"

/-- pdf-utils.ts lines 74–80: the `infoData` rows; the category row is
spread in only when `recipe.category` is truthy. -/
def infoData (r : Recipe) : List (String × String) :=
  [("Tiempo de Preparación:", toString (jsOrNat r.preparation_time 0) ++ " minutos"),
   ("Tiempo de Cocción:", toString (jsOrNat r.cooking_time 0) ++ " minutos"),
   ("Porciones:", toString (jsOrNat r.servings 1)),
   ("Dificultad:", getDifficultyText r.difficulty)] ++
  (match r.category with
   | some c => if c ≠ "" then [("Categoría:", c)] else []
   | none => [])

/-- One iteration of the `infoData.forEach` loop (pdf-utils.ts lines
92–109): the row position is `tableStartY + index * rowHeight`; on overflow
the source adds a page, resets the cursor and returns from the callback
without drawing (a `return` in a `forEach` callback only skips that
iteration). -/
def drawRow (H T : ℚ) (st : PdfState) (p : Nat × (String × String)) : PdfState :=
  let y := T + (p.1 : ℚ) * 8
  if y + 8 > H - 20 then
    { st with page := st.page + 1, currentY := 20 }
  else
    { st with effects := st.effects ++
        [Effect.cell st.page y p.2.1, Effect.cell st.page y p.2.2] }

/-- pdf-utils.ts lines 83–111: draw the table rows from `tableStartY`, then
set the cursor to `tableStartY + infoData.length * rowHeight + 15`
unconditionally. -/
def drawInfoTable (H : ℚ) (rows : List (String × String)) (st : PdfState) : PdfState :=
  let T := st.currentY
  let st1 := (List.enumFrom 0 rows).foldl (drawRow H T) st
  { st1 with currentY := T + (rows.length : ℚ) * 8 + 15 }

/-! ## The section bodies and the full render pipeline -/

/-- pdf-utils.ts line 121: the ingredient bullet line.  A zero or absent
`quantity` is falsy and contributes nothing; `unit?.name || ''` turns an
absent unit into the empty string; truthy `notes` append ` (notes)`.  The
rational quantity prints as its integer numerator when it is an integer,
matching the JavaScript rendering exercised by the spec examples. -/
def ingredientLine (ing : Ingredient) : String :=
  "• " ++
  (match ing.quantity with
   | some q => if q ≠ 0 then toString q ++ " " else ""
   | none => "") ++
  (match ing.unitName with
   | some u => u
   | none => "") ++
  " " ++ ing.ingredient ++
  (match ing.notes with
   | some n => if n ≠ "" then " (" ++ n ++ ")" else ""
   | none => "")

/-- pdf-utils.ts line 134: the numbered instruction line. -/
def stepText (ins : Instruction) : String :=
  toString ins.step_number ++ ". " ++ ins.instruction

/-- pdf-utils.ts lines 57–61: the description block, emitted only when the
description is truthy, followed by a cursor bump of 10. -/
def renderDescription (lc : String → Nat) (H : ℚ) (r : Recipe) (st : PdfState) : PdfState :=
  match r.description with
  | some d => if d ≠ "" then bumpY 10 (addText lc H d 12 false "#666666" st) else st
  | none => st

/-- pdf-utils.ts lines 117–123: the Ingredientes heading (cursor bump 5)
then one `addText` per ingredient at font size 11. -/
def renderIngredients (lc : String → Nat) (H : ℚ) (r : Recipe) (st : PdfState) : PdfState :=
  let st1 := bumpY 5 (addText lc H "Ingredientes" 18 true "#f97316" st)
  r.ingredients.foldl (fun s ing => addText lc H (ingredientLine ing) 11 false "#000000" s) st1

/-- pdf-utils.ts lines 129–137: the Instrucciones heading (cursor bump 5)
then one `addText` per instruction at font size 11, each followed by a
cursor bump of 3. -/
def renderInstructions (lc : String → Nat) (H : ℚ) (r : Recipe) (st : PdfState) : PdfState :=
  let st1 := bumpY 5 (addText lc H "Instrucciones" 18 true "#f97316" st)
  r.instructions.foldl (fun s ins => bumpY 3 (addText lc H (stepText ins) 11 false "#000000" s)) st1

/-- pdf-utils.ts lines 52–137: the layout inside the `try`, before the
footer: title (bump 5), optional description, metadata table, separator,
ingredients section (bump 10 after), separator, instructions section.  The
cursor starts at the top margin on page 0. -/
def renderBody (lc : String → Nat) (H : ℚ) (r : Recipe) : PdfState :=
  let st := PdfState.mk 0 20 []
  let st := bumpY 5 (addText lc H r.name 24 true "#f97316" st)
  let st := renderDescription lc H r st
  let st := drawInfoTable H (infoData r) st
  let st := addSeparator H st
  let st := renderIngredients lc H r st
  let st := addSeparator H (bumpY 10 st)
  renderInstructions lc H r st

/-- pdf-utils.ts lines 139–145: the footer labels, stamped at the fixed
height `pageHeight - 15` on the page current when rendering finished; the
date string is an external input. -/
def addFooter (H : ℚ) (dateStr : String) (st : PdfState) : PdfState :=
  { st with effects := st.effects ++
      [Effect.footer st.page (H - 15) "Generado con Recipe Manager App",
       Effect.footer st.page (H - 15) dateStr] }

def renderRecipe (lc : String → Nat) (H : ℚ) (dateStr : String) (r : Recipe) : PdfState :=
  addFooter H dateStr (renderBody lc H r)

/-- The complete ordered list of library calls made inside the `try` of
`generateRecipePDF`, the final `pdf.save(fileName)` included. -/
def layoutEffects (lc : String → Nat) (H : ℚ) (dateStr : String) (r : Recipe) : List Effect :=
  (renderRecipe lc H dateStr r).effects ++ [Effect.save (exportFileName (codes r.name))]

/-! ## Exceptions: straight-line execution under a fault oracle -/

/-- Run the steps in order; the call at position `i` (counting from the
given start index) throws when `fault i` is true, and execution stops
there, no later step running.  Returns the completed steps and whether the
whole sequence completed. -/
def runSteps {α : Type _} : List α → (Nat → Bool) → Nat → List α × Bool
  | [], _, _ => ([], true)
  | a :: rest, fault, i =>
    if fault i then ([], false)
    else
      let r := runSteps rest fault (i + 1)
      (a :: r.1, r.2)

/-- pdf-utils.ts lines 9–155: the whole export routine.  The body runs
under the fault oracle; the surrounding `catch` replaces any thrown error
by the single generic `'No se pudo generar el PDF'`.  The first component
is the list of library calls that completed. -/
def generateRecipePDF (lc : String → Nat) (H : ℚ) (dateStr : String)
    (r : Recipe) (fault : Nat → Bool) : List Effect × Except String Unit :=
  let run := runSteps (layoutEffects lc H dateStr r) fault 0
  (run.1, if run.2 then Except.ok () else Except.error "No se pudo generar el PDF")

/-! ## The save routine (RecipeForm.tsx lines 119–194) -/

/-- JavaScript whitespace trimming of a string, over the ASCII whitespace
characters. -/
def jsWs (c : Char) : Bool := c = ' ' ∨ c = '\t' ∨ c = '\n' ∨ c = '\r'

def jsTrim (s : String) : String :=
  String.mk (((s.data.dropWhile jsWs).reverse.dropWhile jsWs).reverse)

/-- JavaScript `v || null` on an optional string field: absent and empty both become
null (`none`). -/
def jsOrNull (o : Option String) : Option String :=
  match o with
  | some s => if s = "" then none else some s
  | none => none

/-- One ingredient row of the validated form data (zod `ingredientSchema`). -/
structure IngredientForm where
  ingredient : String
  quantity : Option ℚ
  unit_id : Option String
  notes : Option String
deriving DecidableEq

/-- One instruction row of the validated form data (zod `instructionSchema`). -/
structure InstructionForm where
  step_number : Nat
  instruction : String
deriving DecidableEq

/-- The validated form data (zod `recipeSchema`). -/
structure RecipeFormData where
  name : String
  description : Option String
  category : Option String
  preparation_time : Option Nat
  cooking_time : Option Nat
  difficulty : Option String
  servings : Option Nat
  ingredients : List IngredientForm
  instructions : List InstructionForm
deriving DecidableEq

/-- The remote-store operations `onSubmit` can issue on the edit path. -/
inductive DbOp where
  | updateRecipe (id : String) (name : String) (description category : Option String)
      (preparation_time cooking_time : Option Nat) (difficulty : Option String)
      (servings : Option Nat) (updated_at : String)
  | deleteIngredientsOf (recipe_id : String)
  | deleteInstructionsOf (recipe_id : String)
  | createIngredient (recipe_id : String) (ingredient : String) (quantity : Option ℚ)
      (unit_id : Option String) (notes : Option String)
  | createInstruction (recipe_id : String) (step_number : Nat) (instruction : String)
deriving DecidableEq

/-- RecipeForm.tsx lines 154–165: one `create` per ingredient row whose
text is truthy after trimming, in row order, the row text stored untrimmed
and `unit_id || null` applied. -/
def ingredientCreateOps (rid : String) (rows : List IngredientForm) : List DbOp :=
  rows.foldl
    (fun acc ing =>
      if jsTrim ing.ingredient ≠ "" then
        acc ++ [DbOp.createIngredient rid ing.ingredient ing.quantity
          (jsOrNull ing.unit_id) ing.notes]
      else acc) []

/-- RecipeForm.tsx lines 167–176: one `create` per instruction row whose
text is truthy after trimming, in row order. -/
def instructionCreateOps (rid : String) (rows : List InstructionForm) : List DbOp :=
  rows.foldl
    (fun acc ins =>
      if jsTrim ins.instruction ≠ "" then
        acc ++ [DbOp.createInstruction rid ins.step_number ins.instruction]
      else acc) []

/-- RecipeForm.tsx lines 123–176, edit path (`isEditing` true): update the
recipe record, delete all its ingredient rows, delete all its instruction
rows, then recreate the non-blank ingredients and the non-blank
instructions, in that order.  `nowStr` is the `new Date().toISOString()`
timestamp. -/
def onSubmitEditOps (id nowStr : String) (data : RecipeFormData) : List DbOp :=
  [DbOp.updateRecipe id data.name data.description data.category
      data.preparation_time data.cooking_time data.difficulty data.servings nowStr,
   DbOp.deleteIngredientsOf id,
   DbOp.deleteInstructionsOf id] ++
  ingredientCreateOps id data.ingredients ++
  instructionCreateOps id data.instructions

/-! ## Difficulty labels (C8) -/

/-- C8: the difficulty-label mapping is a total pure function with
`easy ↦ "Fácil"`, `medium ↦ "Medio"`, `hard ↦ "Difícil"` and everything
else — the absent value included — mapping to `"No especificado"`; the
exporter, the list view and the detail view implementations agree
extensionally (the detail view takes a plain string, so it is compared on
present values). -/
theorem difficulty_mapping :
    (∀ d, getDifficultyText d = getDifficultyTextList d) ∧
    (∀ s, getDifficultyTextDetail s = getDifficultyText (some s)) ∧
    getDifficultyText (some "easy") = "Fácil" ∧
    getDifficultyText (some "medium") = "Medio" ∧
    getDifficultyText (some "hard") = "Difícil" ∧
    getDifficultyText none = "No especificado" ∧
    (∀ s, s ≠ "easy" → s ≠ "medium" → s ≠ "hard" →
      getDifficultyText (some s) = "No especificado") := by
  refine ⟨fun d => rfl, fun s => ?_, by decide, by decide, by decide, by decide, ?_⟩
  · simp only [getDifficultyText, getDifficultyTextDetail, Option.some.injEq]
  · intro s h1 h2 h3
    simp [getDifficultyText, h1, h2, h3]

/-- Concrete instance of `difficulty_mapping`. -/
theorem difficulty_mapping_witness :
    getDifficultyTextDetail "hard" = getDifficultyText (some "hard") ∧
    getDifficultyText (some "desconocida") = "No especificado" :=
  ⟨difficulty_mapping.2.1 "hard",
   difficulty_mapping.2.2.2.2.2.2 "desconocida" (by decide) (by decide) (by decide)⟩

/-! ## The metadata rows (C4) -/

/-- C4 (amended): the metadata table rows are prep time, cook time,
servings and difficulty, in this order, with the category row appended
exactly when the category is present and non-empty; when the category is
absent, or present but equal to the empty string (a falsy value the spread
`recipe.category ? … : []` drops), the table has exactly the first four
rows. -/
theorem infoData_rows :
    (∀ (r : Recipe) (c : String), r.category = some c → c ≠ "" →
      infoData r =
        [("Tiempo de Preparación:", toString (jsOrNat r.preparation_time 0) ++ " minutos"),
         ("Tiempo de Cocción:", toString (jsOrNat r.cooking_time 0) ++ " minutos"),
         ("Porciones:", toString (jsOrNat r.servings 1)),
         ("Dificultad:", getDifficultyText r.difficulty),
         ("Categoría:", c)]) ∧
    (∀ r : Recipe, (r.category = none ∨ r.category = some "") →
      infoData r =
        [("Tiempo de Preparación:", toString (jsOrNat r.preparation_time 0) ++ " minutos"),
         ("Tiempo de Cocción:", toString (jsOrNat r.cooking_time 0) ++ " minutos"),
         ("Porciones:", toString (jsOrNat r.servings 1)),
         ("Dificultad:", getDifficultyText r.difficulty)]) := by
  constructor
  · intro r c hc hne
    simp [infoData, hc, hne]
  · intro r hr
    rcases hr with h | h <;> simp [infoData, h]

/-- A recipe whose category is present but empty: `infoData` has only four
rows, so presence of the optional category alone does not produce the
fifth row. -/
theorem infoData_empty_category_cex :
    (Recipe.mk "Paella" none (some "") none none none none [] []).category.isSome = true ∧
    (infoData (Recipe.mk "Paella" none (some "") none none none none [] [])).length = 4 := by
  exact ⟨by decide, by decide⟩

/-- Concrete instance of `infoData_rows`. -/
theorem infoData_rows_witness :
    infoData (Recipe.mk "Paella" none (some "Arroz") (some 30) (some 45) (some 4) (some "medium") [] []) =
      [("Tiempo de Preparación:", toString (jsOrNat (some 30) 0) ++ " minutos"),
       ("Tiempo de Cocción:", toString (jsOrNat (some 45) 0) ++ " minutos"),
       ("Porciones:", toString (jsOrNat (some 4) 1)),
       ("Dificultad:", getDifficultyText (some "medium")),
       ("Categoría:", "Arroz")] ∧
    infoData (Recipe.mk "Pan" none none none none none none [] []) =
      [("Tiempo de Preparación:", toString (jsOrNat none 0) ++ " minutos"),
       ("Tiempo de Cocción:", toString (jsOrNat none 0) ++ " minutos"),
       ("Porciones:", toString (jsOrNat none 1)),
       ("Dificultad:", getDifficultyText none)] :=
  ⟨infoData_rows.1 (Recipe.mk "Paella" none (some "Arroz") (some 30) (some 45) (some 4) (some "medium") [] [])
      "Arroz" rfl (by decide),
   infoData_rows.2 (Recipe.mk "Pan" none none none none none none [] []) (Or.inl rfl)⟩

/-! ## The ingredient bullet line (C7) -/

/-- C7: each ingredient renders as `• <quantity> <unit> <name> (<notes>)`
with each missing (or falsy) optional part omitted; with all parts present
and truthy the full form appears, and the ingredient `manzana` with
quantity 3, no unit and no notes renders exactly as `"• 3  manzana"`, the
double space left by the absent unit included. -/
theorem ingredientLine_format :
    ingredientLine (Ingredient.mk "manzana" (some 3) none none) = "• 3  manzana" ∧
    (∀ (nm u nt : String) (q : ℚ), q ≠ 0 → nt ≠ "" →
      ingredientLine (Ingredient.mk nm (some q) (some u) (some nt)) =
        "• " ++ (toString q ++ " ") ++ u ++ " " ++ nm ++ (" (" ++ nt ++ ")")) ∧
    (∀ nm : String, ingredientLine (Ingredient.mk nm none none none) = "•  " ++ nm) := by
  refine ⟨by decide, ?_, ?_⟩
  · intro nm u nt q hq hnt
    simp [ingredientLine, hq, hnt]
  · intro nm
    show "• " ++ "" ++ "" ++ " " ++ nm ++ "" = "•  " ++ nm
    simp only [String.append_empty]
    rw [show "• " ++ " " = "•  " from by decide]

/-- Concrete instance of `ingredientLine_format`. -/
theorem ingredientLine_format_witness :
    ingredientLine (Ingredient.mk "arroz" (some 3) (some "g") (some "fresco")) =
      "• " ++ (toString (3 : ℚ) ++ " ") ++ "g" ++ " " ++ "arroz" ++ (" (" ++ "fresco" ++ ")") ∧
    ingredientLine (Ingredient.mk "sal" none none none) = "•  " ++ "sal" :=
  ⟨ingredientLine_format.2.1 "arroz" "g" "fresco" 3 (by decide) (by decide),
   ingredientLine_format.2.2 "sal"⟩

/-! ## Persisting only non-blank rows (C6) -/

theorem ingredientCreateOps_eq (rid : String) (rows : List IngredientForm) :
    ingredientCreateOps rid rows =
      (rows.filter fun r => decide (jsTrim r.ingredient ≠ "")).map
        (fun r => DbOp.createIngredient rid r.ingredient r.quantity (jsOrNull r.unit_id) r.notes) := by
  unfold ingredientCreateOps
  rw [foldl_filter_append (fun r : IngredientForm => jsTrim r.ingredient ≠ "")
    (fun r => DbOp.createIngredient rid r.ingredient r.quantity (jsOrNull r.unit_id) r.notes)]
  simp

theorem instructionCreateOps_eq (rid : String) (rows : List InstructionForm) :
    instructionCreateOps rid rows =
      (rows.filter fun r => decide (jsTrim r.instruction ≠ "")).map
        (fun r => DbOp.createInstruction rid r.step_number r.instruction) := by
  unfold instructionCreateOps
  rw [foldl_filter_append (fun r : InstructionForm => jsTrim r.instruction ≠ "")
    (fun r => DbOp.createInstruction rid r.step_number r.instruction)]
  simp

/-- C6: saving issues a create call exactly for the rows whose text is
non-empty after trimming, in row order; a row whose text trims to the
empty string is never persisted. -/
theorem save_filters_blank_rows :
    (∀ (rid : String) (rows : List IngredientForm),
      ingredientCreateOps rid rows =
        (rows.filter fun r => decide (jsTrim r.ingredient ≠ "")).map
          (fun r => DbOp.createIngredient rid r.ingredient r.quantity (jsOrNull r.unit_id) r.notes)) ∧
    (∀ (rid : String) (rows : List InstructionForm),
      instructionCreateOps rid rows =
        (rows.filter fun r => decide (jsTrim r.instruction ≠ "")).map
          (fun r => DbOp.createInstruction rid r.step_number r.instruction)) ∧
    (∀ (rid : String) (rows : List IngredientForm) (r : IngredientForm), r ∈ rows →
      jsTrim r.ingredient = "" →
      DbOp.createIngredient rid r.ingredient r.quantity (jsOrNull r.unit_id) r.notes ∉
        ingredientCreateOps rid rows) ∧
    (∀ (rid : String) (rows : List InstructionForm) (r : InstructionForm), r ∈ rows →
      jsTrim r.instruction = "" →
      DbOp.createInstruction rid r.step_number r.instruction ∉
        instructionCreateOps rid rows) := by
  refine ⟨ingredientCreateOps_eq, instructionCreateOps_eq, ?_, ?_⟩
  · intro rid rows r _ htrim hmem
    rw [ingredientCreateOps_eq] at hmem
    rcases List.mem_map.mp hmem with ⟨r', hr', heq⟩
    rcases List.mem_filter.mp hr' with ⟨-, hne⟩
    have : r'.ingredient = r.ingredient := by
      have h2 := heq.symm
      simp only [DbOp.createIngredient.injEq] at h2
      exact h2.2.1.symm
    exact (of_decide_eq_true hne) (this ▸ htrim)
  · intro rid rows r _ htrim hmem
    rw [instructionCreateOps_eq] at hmem
    rcases List.mem_map.mp hmem with ⟨r', hr', heq⟩
    rcases List.mem_filter.mp hr' with ⟨-, hne⟩
    have : r'.instruction = r.instruction := by
      have h2 := heq.symm
      simp only [DbOp.createInstruction.injEq] at h2
      exact h2.2.2.symm
    exact (of_decide_eq_true hne) (this ▸ htrim)

/-- Concrete instance of `save_filters_blank_rows`. -/
theorem save_filters_blank_rows_witness :
    DbOp.createIngredient "r1" "  " none (jsOrNull none) none ∉
      ingredientCreateOps "r1" [IngredientForm.mk "  " none none none, IngredientForm.mk "sal" none none none] ∧
    DbOp.createInstruction "r1" 2 " " ∉
      instructionCreateOps "r1" [InstructionForm.mk 1 "Hornear", InstructionForm.mk 2 " "] :=
  ⟨save_filters_blank_rows.2.2.1 "r1"
      [IngredientForm.mk "  " none none none, IngredientForm.mk "sal" none none none]
      (IngredientForm.mk "  " none none none) (by decide) (by decide),
   save_filters_blank_rows.2.2.2 "r1"
      [InstructionForm.mk 1 "Hornear", InstructionForm.mk 2 " "]
      (InstructionForm.mk 2 " ") (by decide) (by decide)⟩

/-! ## Text emission and pagination (C2) -/

theorem addText_break (lc : String → Nat) (H : ℚ) (c : String) (fs : ℚ)
    (b : Bool) (col : String) (st : PdfState)
    (h : st.currentY + (lc c : ℚ) * (fs * (2/5)) > H - 20) :
    addText lc H c fs b col st =
      PdfState.mk (st.page + 1) (20 + (lc c : ℚ) * (fs * (2/5)) + 5)
        (st.effects ++ [Effect.text (st.page + 1) 20 (lc c) fs c b col]) := by
  simp only [addText]
  rw [if_pos h]

theorem addText_no_break (lc : String → Nat) (H : ℚ) (c : String) (fs : ℚ)
    (b : Bool) (col : String) (st : PdfState)
    (h : ¬(st.currentY + (lc c : ℚ) * (fs * (2/5)) > H - 20)) :
    addText lc H c fs b col st =
      PdfState.mk st.page (st.currentY + (lc c : ℚ) * (fs * (2/5)) + 5)
        (st.effects ++ [Effect.text st.page st.currentY (lc c) fs c b col]) := by
  simp only [addText]
  rw [if_neg h]

/-- C2 (amended): the text-emission primitive starts a new page and resets
the cursor to the top margin before emitting exactly when the cursor plus
the block height (`lineCount × fontSize × 0.4`) would exceed
`pageHeight - margin`, and after emission the cursor sits at the emission
position plus the block height plus 5; consequently, over every sequence
of `addText` calls in which each block fits within one printable page
(block height at most `pageHeight - 2·margin`), no emitted block extends
below `pageHeight - margin`. -/
theorem addText_pagination :
    (∀ (lc : String → Nat) (H fs : ℚ) (c col : String) (b : Bool) (st : PdfState),
      (st.currentY + (lc c : ℚ) * (fs * (2/5)) > H - 20 →
        addText lc H c fs b col st =
          PdfState.mk (st.page + 1) (20 + (lc c : ℚ) * (fs * (2/5)) + 5)
            (st.effects ++ [Effect.text (st.page + 1) 20 (lc c) fs c b col])) ∧
      (¬(st.currentY + (lc c : ℚ) * (fs * (2/5)) > H - 20) →
        addText lc H c fs b col st =
          PdfState.mk st.page (st.currentY + (lc c : ℚ) * (fs * (2/5)) + 5)
            (st.effects ++ [Effect.text st.page st.currentY (lc c) fs c b col]))) ∧
    (∀ (lc : String → Nat) (H : ℚ) (blocks : List (String × ℚ × Bool × String)) (st0 : PdfState),
      (∀ bl ∈ blocks, (lc bl.1 : ℚ) * (bl.2.1 * (2/5)) ≤ H - 40) →
      ∀ (p : Nat) (y : ℚ) (L : Nat) (fs' : ℚ) (c' : String) (b' : Bool) (col' : String),
        Effect.text p y L fs' c' b' col' ∈
          (blocks.foldl (fun s bl => addText lc H bl.1 bl.2.1 bl.2.2.1 bl.2.2.2 s) st0).effects →
        Effect.text p y L fs' c' b' col' ∈ st0.effects ∨
          y + (L : ℚ) * (fs' * (2/5)) ≤ H - 20) := by
  constructor
  · intro lc H fs c col b st
    exact ⟨addText_break lc H c fs b col st, addText_no_break lc H c fs b col st⟩
  · intro lc H blocks
    induction blocks with
    | nil =>
        intro st0 _ p y L fs' c' b' col' hmem
        exact Or.inl (by simpa using hmem)
    | cons bl t ih =>
        intro st0 hblocks p y L fs' c' b' col' hmem
        rw [List.foldl_cons] at hmem
        have ht : ∀ x ∈ t, (lc x.1 : ℚ) * (x.2.1 * (2/5)) ≤ H - 40 :=
          fun x hx => hblocks x (List.mem_cons_of_mem _ hx)
        rcases ih (addText lc H bl.1 bl.2.1 bl.2.2.1 bl.2.2.2 st0) ht p y L fs' c' b' col' hmem
          with hin | hb
        · by_cases hc : st0.currentY + (lc bl.1 : ℚ) * (bl.2.1 * (2/5)) > H - 20
          · rw [addText_break lc H bl.1 bl.2.1 bl.2.2.1 bl.2.2.2 st0 hc] at hin
            rcases List.mem_append.mp hin with h0 | h1
            · exact Or.inl h0
            · right
              have hinj := List.mem_singleton.mp h1
              simp only [Effect.text.injEq] at hinj
              obtain ⟨-, hy, hL, hfs, -, -, -⟩ := hinj
              subst hy; subst hL; subst hfs
              have hbl := hblocks bl (List.mem_cons_self bl t)
              linarith
          · rw [addText_no_break lc H bl.1 bl.2.1 bl.2.2.1 bl.2.2.2 st0 hc] at hin
            rcases List.mem_append.mp hin with h0 | h1
            · exact Or.inl h0
            · right
              have hinj := List.mem_singleton.mp h1
              simp only [Effect.text.injEq] at hinj
              obtain ⟨-, hy, hL, hfs, -, -, -⟩ := hinj
              subst hy; subst hL; subst hfs
              linarith [not_lt.mp hc]
        · exact Or.inr hb

/-- A single block taller than the printable page: the page break fires and
the block is emitted at the top margin of the new page, yet its height
makes it extend past `pageHeight - margin`, so text is still placed below
the limit. -/
theorem addText_overflow_cex :
    (addText (fun _ => 100) 297 "detalle" 12 false "#000000" (PdfState.mk 0 20 [])).effects
      = [Effect.text 1 20 100 12 "detalle" false "#000000"] ∧
    ¬((20 : ℚ) + ((100 : Nat) : ℚ) * (12 * (2/5)) ≤ 297 - 20) := by
  constructor
  · rw [addText_break (fun _ => 100) 297 "detalle" 12 false "#000000" (PdfState.mk 0 20 [])
      (by norm_num)]
    simp
  · norm_num

def lcTwo : String → Nat := fun _ => 2

/-- Concrete instance of `addText_pagination`. -/
theorem addText_pagination_witness :
    addText lcTwo 297 "hola" 12 false "#000000" (PdfState.mk 0 275 []) =
      PdfState.mk (0 + 1) (20 + (lcTwo "hola" : ℚ) * (12 * (2/5)) + 5)
        ([] ++ [Effect.text (0 + 1) 20 (lcTwo "hola") 12 "hola" false "#000000"]) ∧
    addText lcTwo 297 "hola" 12 false "#000000" (PdfState.mk 0 20 []) =
      PdfState.mk 0 (20 + (lcTwo "hola" : ℚ) * (12 * (2/5)) + 5)
        ([] ++ [Effect.text 0 20 (lcTwo "hola") 12 "hola" false "#000000"]) ∧
    (Effect.text 0 20 (lcTwo "a") 12 "a" false "#000000" ∈
        (PdfState.mk 0 20 [Effect.text 0 20 (lcTwo "a") 12 "a" false "#000000"]).effects ∨
      (20 : ℚ) + (lcTwo "a" : ℚ) * (12 * (2/5)) ≤ 297 - 20) :=
  ⟨(addText_pagination.1 lcTwo 297 12 "hola" "#000000" false (PdfState.mk 0 275 [])).1
      (by show (275 : ℚ) + ((2 : Nat) : ℚ) * (12 * (2/5)) > 297 - 20; norm_num),
   (addText_pagination.1 lcTwo 297 12 "hola" "#000000" false (PdfState.mk 0 20 [])).2
      (by show ¬((20 : ℚ) + ((2 : Nat) : ℚ) * (12 * (2/5)) > 297 - 20); norm_num),
   addText_pagination.2 lcTwo 297 []
      (PdfState.mk 0 20 [Effect.text 0 20 (lcTwo "a") 12 "a" false "#000000"])
      (by simp) 0 20 (lcTwo "a") 12 "a" false "#000000" (by simp)⟩

/-! ## The metadata table overflow behaviour (C3) -/

theorem drawRow_skip (H T : ℚ) (st : PdfState) (p : Nat × (String × String))
    (h : T + (p.1 : ℚ) * 8 + 8 > H - 20) :
    drawRow H T st p = PdfState.mk (st.page + 1) 20 st.effects := by
  simp only [drawRow]
  rw [if_pos h]

theorem drawRow_draw (H T : ℚ) (st : PdfState) (p : Nat × (String × String))
    (h : ¬(T + (p.1 : ℚ) * 8 + 8 > H - 20)) :
    drawRow H T st p = PdfState.mk st.page st.currentY
      (st.effects ++ [Effect.cell st.page (T + (p.1 : ℚ) * 8) p.2.1,
                      Effect.cell st.page (T + (p.1 : ℚ) * 8) p.2.2]) := by
  simp only [drawRow]
  rw [if_neg h]

theorem drawRows_skip_all (H T : ℚ) :
    ∀ (l : List (Nat × (String × String))) (st : PdfState),
      (∀ p ∈ l, T + (p.1 : ℚ) * 8 + 8 > H - 20) →
      (l.foldl (drawRow H T) st).effects = st.effects ∧
      (l.foldl (drawRow H T) st).page = st.page + l.length := by
  intro l
  induction l with
  | nil => intro st _; simp
  | cons p t ih =>
      intro st hall
      rw [List.foldl_cons, drawRow_skip H T st p (hall p (List.mem_cons_self p t))]
      obtain ⟨he, hp⟩ :=
        ih (PdfState.mk (st.page + 1) 20 st.effects) (fun q hq => hall q (List.mem_cons_of_mem _ hq))
      refine ⟨by simpa using he, ?_⟩
      rw [hp]
      simp
      omega

theorem drawRows_char (H T : ℚ) :
    ∀ (rows : List (String × String)) (i : Nat) (st : PdfState),
      ((List.enumFrom i rows).foldl (drawRow H T) st).effects
        = st.effects ++
          ((List.enumFrom i rows).filter fun p => decide (T + (p.1 : ℚ) * 8 + 8 ≤ H - 20)).flatMap
            (fun p => [Effect.cell st.page (T + (p.1 : ℚ) * 8) p.2.1,
                       Effect.cell st.page (T + (p.1 : ℚ) * 8) p.2.2]) ∧
      ((List.enumFrom i rows).foldl (drawRow H T) st).page
        = st.page +
          ((List.enumFrom i rows).filter fun p => !decide (T + (p.1 : ℚ) * 8 + 8 ≤ H - 20)).length := by
  intro rows
  induction rows with
  | nil => intro i st; simp [List.enumFrom]
  | cons r rows ih =>
      intro i st
      by_cases hfit : T + (i : ℚ) * 8 + 8 ≤ H - 20
      · have hnot : ¬(T + ((i, r).1 : ℚ) * 8 + 8 > H - 20) := not_lt.mpr hfit
        obtain ⟨ihe, ihp⟩ := ih (i + 1)
          (PdfState.mk st.page st.currentY
            (st.effects ++ [Effect.cell st.page (T + (i : ℚ) * 8) r.1,
                            Effect.cell st.page (T + (i : ℚ) * 8) r.2]))
        constructor
        · show (List.foldl (drawRow H T) (drawRow H T st (i, r)) (List.enumFrom (i + 1) rows)).effects = _
          rw [drawRow_draw H T st (i, r) hnot, ihe]
          simp [List.filter_cons, hfit, List.append_assoc]
        · show (List.foldl (drawRow H T) (drawRow H T st (i, r)) (List.enumFrom (i + 1) rows)).page = _
          rw [drawRow_draw H T st (i, r) hnot, ihp]
          simp [List.filter_cons, hfit]
      · have hgt : T + ((i, r).1 : ℚ) * 8 + 8 > H - 20 := not_le.mp hfit
        have hall : ∀ p ∈ List.enumFrom (i + 1) rows, T + (p.1 : ℚ) * 8 + 8 > H - 20 := by
          intro p hp
          have hle : i + 1 ≤ p.1 := (List.mem_enumFrom hp).1
          have hc : (i : ℚ) ≤ (p.1 : ℚ) := Nat.cast_le.mpr (by omega)
          have hm : (i : ℚ) * 8 ≤ (p.1 : ℚ) * 8 :=
            mul_le_mul_of_nonneg_right hc (by norm_num)
          have := hgt
          simp only at this
          linarith
        obtain ⟨he, hp⟩ := drawRows_skip_all H T (List.enumFrom (i + 1) rows)
          (PdfState.mk (st.page + 1) 20 st.effects) hall
        have hnone : (List.enumFrom (i + 1) rows).filter
            (fun p => decide (T + (p.1 : ℚ) * 8 + 8 ≤ H - 20)) = [] := by
          refine List.filter_eq_nil_iff.mpr ?_
          intro p hp
          simp only [decide_eq_true_eq]
          exact fun hle => absurd hle (not_le.mpr (hall p hp))
        have hself : (List.enumFrom (i + 1) rows).filter
            (fun p => !decide (T + (p.1 : ℚ) * 8 + 8 ≤ H - 20)) = List.enumFrom (i + 1) rows := by
          refine List.filter_eq_self.mpr ?_
          intro p hp
          simp only [Bool.not_eq_true', decide_eq_false_iff_not]
          exact not_le.mpr (hall p hp)
        constructor
        · show (List.foldl (drawRow H T) (drawRow H T st (i, r)) (List.enumFrom (i + 1) rows)).effects = _
          rw [drawRow_skip H T st (i, r) hgt, he]
          simp [List.filter_cons, hfit, hnone]
        · show (List.foldl (drawRow H T) (drawRow H T st (i, r)) (List.enumFrom (i + 1) rows)).page = _
          rw [drawRow_skip H T st (i, r) hgt, hp]
          simp [List.filter_cons, hfit, hself]
          omega

/-- C3: when a metadata-table row would cross `pageHeight - margin`, the
builder starts a new page (the final page index strictly grows) but skips
drawing that row and every remaining row: the cells actually drawn are
exactly the ones of the rows fitting above the limit, and every drawn cell
sits on the page that was current when the table started — never on a new
page. -/
theorem infoTable_overflow_skips_rows (H : ℚ) (rows : List (String × String)) (st : PdfState) :
    ((drawInfoTable H rows st).effects
       = st.effects ++
         ((List.enumFrom 0 rows).filter fun p =>
             decide (st.currentY + (p.1 : ℚ) * 8 + 8 ≤ H - 20)).flatMap
           (fun p => [Effect.cell st.page (st.currentY + (p.1 : ℚ) * 8) p.2.1,
                      Effect.cell st.page (st.currentY + (p.1 : ℚ) * 8) p.2.2])) ∧
    (∀ (p : Nat) (y : ℚ) (s : String), Effect.cell p y s ∈ (drawInfoTable H rows st).effects →
      Effect.cell p y s ∈ st.effects ∨ p = st.page) ∧
    ((∃ q ∈ List.enumFrom 0 rows, ¬(st.currentY + (q.1 : ℚ) * 8 + 8 ≤ H - 20)) →
      st.page < (drawInfoTable H rows st).page) := by
  obtain ⟨he, hp⟩ := drawRows_char H st.currentY rows 0 st
  have heff : (drawInfoTable H rows st).effects
      = (List.foldl (drawRow H st.currentY) st (List.enumFrom 0 rows)).effects := rfl
  have hpg : (drawInfoTable H rows st).page
      = (List.foldl (drawRow H st.currentY) st (List.enumFrom 0 rows)).page := rfl
  refine ⟨by rw [heff, he], ?_, ?_⟩
  · intro p y s hmem
    rw [heff, he] at hmem
    rcases List.mem_append.mp hmem with h0 | h1
    · exact Or.inl h0
    · right
      rcases List.mem_flatMap.mp h1 with ⟨q, -, hq⟩
      simp only [List.mem_cons, List.not_mem_nil, or_false] at hq
      rcases hq with h | h <;>
        exact ((Effect.cell.injEq _ _ _ _ _ _).mp h).1
  · intro hover
    rw [hpg, hp]
    rcases hover with ⟨q, hq, hqgt⟩
    have : q ∈ (List.enumFrom 0 rows).filter
        (fun p => !decide (st.currentY + (p.1 : ℚ) * 8 + 8 ≤ H - 20)) :=
      List.mem_filter.mpr ⟨hq, by simpa using hqgt⟩
    have hlen := List.length_pos.mpr (List.ne_nil_of_mem this)
    omega

/-- Concrete instance of `infoTable_overflow_skips_rows`: with the cursor
at 265 on a 297-high page, the second row of a two-row table overflows, so
a page is started and the seeded cell is the only cell carried over. -/
theorem infoTable_overflow_skips_rows_witness :
    (Effect.cell 7 3 "seed" ∈
        (PdfState.mk 0 265 [Effect.cell 7 3 "seed"]).effects ∨ (7 : Nat) = 0) ∧
    (0 : Nat) < (drawInfoTable 297 [("a", "1"), ("b", "2")]
        (PdfState.mk 0 265 [Effect.cell 7 3 "seed"])).page := by
  have h := infoTable_overflow_skips_rows 297 [("a", "1"), ("b", "2")]
    (PdfState.mk 0 265 [Effect.cell 7 3 "seed"])
  refine ⟨h.2.1 7 3 "seed" ?_, h.2.2 ⟨((1 : Nat), ("b", "2")), by decide, by norm_num⟩⟩
  rw [h.1]
  exact List.mem_append_left _ (by simp)

/-! ## What the body of the report can emit (for C10 and C5)

Every call before the footer stamps only text blocks, separator rules and
table cells; footers come only from the final footer step and the save
only from `pdf.save`. -/

def bodyEffect (e : Effect) : Prop := e.isFooter = false ∧ e.isSave = false

def BodyOnly (st : PdfState) : Prop := ∀ e ∈ st.effects, bodyEffect e

theorem bodyOnly_addText (lc : String → Nat) (H : ℚ) (c : String) (fs : ℚ)
    (b : Bool) (col : String) (st : PdfState) (h : BodyOnly st) :
    BodyOnly (addText lc H c fs b col st) := by
  intro e he
  by_cases hc : st.currentY + (lc c : ℚ) * (fs * (2/5)) > H - 20
  · rw [addText_break lc H c fs b col st hc] at he
    rcases List.mem_append.mp he with h0 | h1
    · exact h e h0
    · rw [List.mem_singleton.mp h1]; exact ⟨rfl, rfl⟩
  · rw [addText_no_break lc H c fs b col st hc] at he
    rcases List.mem_append.mp he with h0 | h1
    · exact h e h0
    · rw [List.mem_singleton.mp h1]; exact ⟨rfl, rfl⟩

theorem addSeparator_effects (H : ℚ) (st : PdfState) :
    ∃ p y, (addSeparator H st).effects = st.effects ++ [Effect.rule p y] := by
  simp only [addSeparator]
  split <;> exact ⟨_, _, rfl⟩

theorem bodyOnly_addSeparator (H : ℚ) (st : PdfState) (h : BodyOnly st) :
    BodyOnly (addSeparator H st) := by
  intro e he
  obtain ⟨p, y, hsh⟩ := addSeparator_effects H st
  rw [hsh] at he
  rcases List.mem_append.mp he with h0 | h1
  · exact h e h0
  · rw [List.mem_singleton.mp h1]; exact ⟨rfl, rfl⟩

theorem bodyOnly_bumpY (d : ℚ) (st : PdfState) (h : BodyOnly st) :
    BodyOnly (bumpY d st) := h

theorem bodyOnly_drawRow (H T : ℚ) (st : PdfState) (p : Nat × (String × String))
    (h : BodyOnly st) : BodyOnly (drawRow H T st p) := by
  intro e he
  by_cases hc : T + (p.1 : ℚ) * 8 + 8 > H - 20
  · rw [drawRow_skip H T st p hc] at he
    exact h e he
  · rw [drawRow_draw H T st p hc] at he
    rcases List.mem_append.mp he with h0 | h1
    · exact h e h0
    · simp only [List.mem_cons, List.not_mem_nil, or_false] at h1
      rcases h1 with h1 | h1 <;> (rw [h1]; exact ⟨rfl, rfl⟩)

theorem bodyOnly_drawInfoTable (H : ℚ) (rows : List (String × String)) (st : PdfState)
    (h : BodyOnly st) : BodyOnly (drawInfoTable H rows st) :=
  foldl_preserve BodyOnly (drawRow H st.currentY)
    (fun s a hs => bodyOnly_drawRow H st.currentY s a hs) (List.enumFrom 0 rows) st h

theorem bodyOnly_renderDescription (lc : String → Nat) (H : ℚ) (r : Recipe) (st : PdfState)
    (h : BodyOnly st) : BodyOnly (renderDescription lc H r st) := by
  unfold renderDescription
  cases r.description with
  | none => exact h
  | some d =>
      show BodyOnly (if d ≠ "" then bumpY 10 (addText lc H d 12 false "#666666" st) else st)
      by_cases hd : d ≠ ""
      · rw [if_pos hd]
        exact bodyOnly_bumpY 10 _ (bodyOnly_addText lc H d 12 false "#666666" st h)
      · rw [if_neg hd]
        exact h

theorem bodyOnly_renderIngredients (lc : String → Nat) (H : ℚ) (r : Recipe) (st : PdfState)
    (h : BodyOnly st) : BodyOnly (renderIngredients lc H r st) :=
  foldl_preserve BodyOnly _
    (fun s ing hs => bodyOnly_addText lc H (ingredientLine ing) 11 false "#000000" s hs)
    r.ingredients _
    (bodyOnly_bumpY 5 _ (bodyOnly_addText lc H "Ingredientes" 18 true "#f97316" st h))

theorem bodyOnly_renderInstructions (lc : String → Nat) (H : ℚ) (r : Recipe) (st : PdfState)
    (h : BodyOnly st) : BodyOnly (renderInstructions lc H r st) :=
  foldl_preserve BodyOnly _
    (fun s ins hs =>
      bodyOnly_bumpY 3 _ (bodyOnly_addText lc H (stepText ins) 11 false "#000000" s hs))
    r.instructions _
    (bodyOnly_bumpY 5 _ (bodyOnly_addText lc H "Instrucciones" 18 true "#f97316" st h))

theorem bodyOnly_renderBody (lc : String → Nat) (H : ℚ) (r : Recipe) :
    BodyOnly (renderBody lc H r) := by
  unfold renderBody
  exact bodyOnly_renderInstructions lc H r _
    (bodyOnly_addSeparator H _
      (bodyOnly_bumpY 10 _
        (bodyOnly_renderIngredients lc H r _
          (bodyOnly_addSeparator H _
            (bodyOnly_drawInfoTable H (infoData r) _
              (bodyOnly_renderDescription lc H r _
                (bodyOnly_bumpY 5 _
                  (bodyOnly_addText lc H r.name 24 true "#f97316" (PdfState.mk 0 20 [])
                    (fun e he => absurd he (List.not_mem_nil e))))))))))

/-! ## The footer position (C10) -/

/-- C10: on the export path the footer labels (the generation label and
the date) are stamped at the fixed height `pageHeight - 15`, strictly
below the `pageHeight - margin` content limit (margin being 20), on the
page that is current when rendering finishes, whatever the cursor holds:
they are exactly the footer effects the render produces. -/
theorem footer_fixed_position (lc : String → Nat) (H : ℚ) (dateStr : String) (r : Recipe) :
    ((renderRecipe lc H dateStr r).effects.filter Effect.isFooter
       = [Effect.footer (renderRecipe lc H dateStr r).page (H - 15)
            "Generado con Recipe Manager App",
          Effect.footer (renderRecipe lc H dateStr r).page (H - 15) dateStr]) ∧
    H - 15 > H - 20 := by
  constructor
  · have hb := bodyOnly_renderBody lc H r
    have hnil : (renderBody lc H r).effects.filter Effect.isFooter = [] :=
      List.filter_eq_nil_iff.mpr (fun e he => by simp [(hb e he).1])
    have he : (renderRecipe lc H dateStr r).effects
        = (renderBody lc H r).effects ++
          [Effect.footer (renderBody lc H r).page (H - 15) "Generado con Recipe Manager App",
           Effect.footer (renderBody lc H r).page (H - 15) dateStr] := rfl
    have hp : (renderRecipe lc H dateStr r).page = (renderBody lc H r).page := rfl
    rw [he, hp, List.filter_append, hnil]
    simp [Effect.isFooter]
  · linarith

/-! ## The error path of the export routine (C5) -/

theorem runSteps_spec {α : Type _} :
    ∀ (l : List α) (fault : Nat → Bool) (i : Nat),
      ((runSteps l fault i).2 = true → (runSteps l fault i).1 = l) ∧
      ((runSteps l fault i).2 = false →
        ∃ k, k < l.length ∧ (runSteps l fault i).1 = l.take k) := by
  intro l
  induction l with
  | nil =>
      intro fault i
      exact ⟨fun _ => rfl, fun h => absurd h (by simp [runSteps])⟩
  | cons a t ih =>
      intro fault i
      by_cases hf : fault i
      · constructor
        · intro h
          exact absurd h (by simp [runSteps, hf])
        · intro _
          exact ⟨0, by simp, by simp [runSteps, hf]⟩
      · have h1 : runSteps (a :: t) fault i
            = (a :: (runSteps t fault (i + 1)).1, (runSteps t fault (i + 1)).2) := by
          simp [runSteps, hf]
        constructor
        · intro h
          rw [h1] at h ⊢
          simp only at h ⊢
          rw [(ih fault (i + 1)).1 h]
        · intro h
          rw [h1] at h ⊢
          simp only at h ⊢
          obtain ⟨k, hk, he⟩ := (ih fault (i + 1)).2 h
          exact ⟨k + 1, by simpa using Nat.succ_lt_succ hk, by rw [List.take_succ_cons, he]⟩

theorem runSteps_all_ok {α : Type _} :
    ∀ (l : List α) (i : Nat), runSteps l (fun _ => false) i = (l, true) := by
  intro l
  induction l with
  | nil => intro i; rfl
  | cons a t ih => intro i; simp [runSteps, ih]

theorem runSteps_first_fault {α : Type _} (l : List α) (fault : Nat → Bool) (i : Nat)
    (hl : l ≠ []) (h : fault i = true) : runSteps l fault i = ([], false) := by
  cases l with
  | nil => exact absurd rfl hl
  | cons a t => simp [runSteps, h]

theorem renderRecipe_no_save (lc : String → Nat) (H : ℚ) (dateStr : String) (r : Recipe) :
    ∀ e ∈ (renderRecipe lc H dateStr r).effects, e.isSave = false := by
  intro e he
  have hsh : (renderRecipe lc H dateStr r).effects
      = (renderBody lc H r).effects ++
        [Effect.footer (renderBody lc H r).page (H - 15) "Generado con Recipe Manager App",
         Effect.footer (renderBody lc H r).page (H - 15) dateStr] := rfl
  rw [hsh] at he
  rcases List.mem_append.mp he with h0 | h1
  · exact (bodyOnly_renderBody lc H r e h0).2
  · simp only [List.mem_cons, List.not_mem_nil, or_false] at h1
    rcases h1 with h1 | h1 <;> (rw [h1]; rfl)

/-- C5: whenever the export routine reports an error, the error is exactly
the single generic message `'No se pudo generar el PDF'` and the completed
calls contain no `pdf.save` — no output file is produced on the error
path; on the success path the entire call sequence, the save included, ran
to completion. -/
theorem export_error_path (lc : String → Nat) (H : ℚ) (dateStr : String) (r : Recipe)
    (fault : Nat → Bool) :
    (∀ msg, (generateRecipePDF lc H dateStr r fault).2 = Except.error msg →
      msg = "No se pudo generar el PDF" ∧
      ∀ fn, Effect.save fn ∉ (generateRecipePDF lc H dateStr r fault).1) ∧
    ((generateRecipePDF lc H dateStr r fault).2 = Except.ok () →
      (generateRecipePDF lc H dateStr r fault).1 = layoutEffects lc H dateStr r) := by
  have hdef1 : (generateRecipePDF lc H dateStr r fault).1
      = (runSteps (layoutEffects lc H dateStr r) fault 0).1 := rfl
  have hdef2 : (generateRecipePDF lc H dateStr r fault).2
      = if (runSteps (layoutEffects lc H dateStr r) fault 0).2 then Except.ok ()
        else Except.error "No se pudo generar el PDF" := rfl
  constructor
  · intro msg hmsg
    by_cases hr2 : (runSteps (layoutEffects lc H dateStr r) fault 0).2
    · rw [hdef2, if_pos hr2] at hmsg
      exact Except.noConfusion hmsg
    · have hr2' : (runSteps (layoutEffects lc H dateStr r) fault 0).2 = false := by
        simpa using hr2
      rw [hdef2, if_neg (by simp [hr2'])] at hmsg
      have hm : msg = "No se pudo generar el PDF" := by
        injection hmsg with h
        exact h.symm
      refine ⟨hm, ?_⟩
      obtain ⟨k, hk, he⟩ := (runSteps_spec (layoutEffects lc H dateStr r) fault 0).2 hr2'
      intro fn hmem
      rw [hdef1, he] at hmem
      have hlen : (layoutEffects lc H dateStr r).length
          = (renderRecipe lc H dateStr r).effects.length + 1 := by
        simp [layoutEffects]
      have hkE : k ≤ (renderRecipe lc H dateStr r).effects.length := by omega
      have htake : (layoutEffects lc H dateStr r).take k
          = (renderRecipe lc H dateStr r).effects.take k := by
        have hsplit : layoutEffects lc H dateStr r
            = (renderRecipe lc H dateStr r).effects ++
              [Effect.save (exportFileName (codes r.name))] := rfl
        rw [hsplit, List.take_append_of_le_length hkE]
      rw [htake] at hmem
      have hin : Effect.save fn ∈ (renderRecipe lc H dateStr r).effects :=
        List.take_subset _ _ hmem
      have := renderRecipe_no_save lc H dateStr r _ hin
      simp [Effect.isSave] at this
  · intro hok
    by_cases hr2 : (runSteps (layoutEffects lc H dateStr r) fault 0).2
    · rw [hdef1, (runSteps_spec (layoutEffects lc H dateStr r) fault 0).1 hr2]
    · rw [hdef2, if_neg (by simpa using hr2)] at hok
      exact Except.noConfusion hok

def lcOne : String → Nat := fun _ => 1

def recipe0 : Recipe :=
  Recipe.mk "Tarta" none none none none none none [] []

/-- Concrete instance of `export_error_path`: with the first library call
throwing, the export reports the generic message and completes no save;
with no call throwing, every call, the save included, completes. -/
theorem export_error_path_witness :
    ("No se pudo generar el PDF" = "No se pudo generar el PDF" ∧
      ∀ fn, Effect.save fn ∉ (generateRecipePDF lcOne 297 "hoy" recipe0 (fun _ => true)).1) ∧
    (generateRecipePDF lcOne 297 "hoy" recipe0 (fun _ => false)).1
      = layoutEffects lcOne 297 "hoy" recipe0 := by
  constructor
  · refine (export_error_path lcOne 297 "hoy" recipe0 (fun _ => true)).1
      "No se pudo generar el PDF" ?_
    have hl : layoutEffects lcOne 297 "hoy" recipe0 ≠ [] := by
      simp [layoutEffects]
    have hrun : runSteps (layoutEffects lcOne 297 "hoy" recipe0) (fun _ => true) 0
        = ([], false) :=
      runSteps_first_fault _ _ 0 hl rfl
    show (if (runSteps (layoutEffects lcOne 297 "hoy" recipe0) (fun _ => true) 0).2
        then Except.ok () else Except.error "No se pudo generar el PDF")
      = Except.error "No se pudo generar el PDF"
    rw [hrun]
    simp
  · refine (export_error_path lcOne 297 "hoy" recipe0 (fun _ => false)).2 ?_
    have hrun := runSteps_all_ok (layoutEffects lcOne 297 "hoy" recipe0) 0
    show (if (runSteps (layoutEffects lcOne 297 "hoy" recipe0) (fun _ => false) 0).2
        then Except.ok () else Except.error "No se pudo generar el PDF")
      = Except.ok ()
    rw [hrun]
    simp

/-! ## The non-atomic save sequence (C9) -/

/-- C9: on the edit path the save issues exactly, and in this order, the
recipe update, the wholesale delete of the ingredient rows, the wholesale
delete of the instruction rows, the creates of the non-blank ingredient
rows and the creates of the non-blank instruction rows; under any fault
the completed operations are a plain initial segment of that sequence — a
proper one when a call threw — and nothing else runs: no rollback and no
compensation operation exists in the model at all. -/
theorem save_sequence_non_atomic (id nowStr : String) (data : RecipeFormData)
    (fault : Nat → Bool) :
    (onSubmitEditOps id nowStr data
      = DbOp.updateRecipe id data.name data.description data.category
          data.preparation_time data.cooking_time data.difficulty data.servings nowStr
        :: DbOp.deleteIngredientsOf id :: DbOp.deleteInstructionsOf id ::
        (((data.ingredients.filter fun r => decide (jsTrim r.ingredient ≠ "")).map
            (fun r => DbOp.createIngredient id r.ingredient r.quantity
              (jsOrNull r.unit_id) r.notes)) ++
         ((data.instructions.filter fun r => decide (jsTrim r.instruction ≠ "")).map
            (fun r => DbOp.createInstruction id r.step_number r.instruction)))) ∧
    (∃ k ≤ (onSubmitEditOps id nowStr data).length,
      (runSteps (onSubmitEditOps id nowStr data) fault 0).1
        = (onSubmitEditOps id nowStr data).take k ∧
      ((runSteps (onSubmitEditOps id nowStr data) fault 0).2 = false →
        k < (onSubmitEditOps id nowStr data).length)) := by
  constructor
  · unfold onSubmitEditOps
    rw [ingredientCreateOps_eq, instructionCreateOps_eq]
    exact rfl
  · by_cases hr2 : (runSteps (onSubmitEditOps id nowStr data) fault 0).2
    · refine ⟨(onSubmitEditOps id nowStr data).length, le_refl _, ?_, ?_⟩
      · rw [List.take_length]
        exact (runSteps_spec (onSubmitEditOps id nowStr data) fault 0).1 hr2
      · intro hfalse
        rw [hfalse] at hr2
        exact absurd hr2 (by simp)
    · have hr2' : (runSteps (onSubmitEditOps id nowStr data) fault 0).2 = false := by
        simpa using hr2
      obtain ⟨k, hk, he⟩ := (runSteps_spec (onSubmitEditOps id nowStr data) fault 0).2 hr2'
      exact ⟨k, le_of_lt hk, he, fun _ => hk⟩

def formData0 : RecipeFormData :=
  RecipeFormData.mk "Tarta de Manzana" none none none none none none
    [IngredientForm.mk "manzana" (some 3) none none, IngredientForm.mk " " none none none]
    [InstructionForm.mk 1 "Hornear 40 minutos", InstructionForm.mk 2 " "]

/-- Concrete instance of `save_sequence_non_atomic`: a fault at the second
operation (the delete of the ingredient rows) leaves a proper initial
segment executed. -/
theorem save_sequence_non_atomic_witness :
    ∃ k ≤ (onSubmitEditOps "r1" "t0" formData0).length,
      (runSteps (onSubmitEditOps "r1" "t0" formData0) (fun i => decide (i = 1)) 0).1
        = (onSubmitEditOps "r1" "t0" formData0).take k ∧
      ((runSteps (onSubmitEditOps "r1" "t0" formData0) (fun i => decide (i = 1)) 0).2 = false →
        k < (onSubmitEditOps "r1" "t0" formData0).length) :=
  (save_sequence_non_atomic "r1" "t0" formData0 (fun i => decide (i = 1))).2

end RecipeApp
